import Mathlib

/-!
Verification development for the Datum S-expression codec (Rust crate `datum`).

The definitions below are a shallow embedding of the crate's core stages,
translated from the Rust sources:

* `src/char_classes.rs` — character classifier and the escape emitter
  (`DatumCharClass`, `DatumChar`, `DatumCharEmit`);
* `src/decoder.rs` — the escape-sequence decoder (`DatumDecoder`);
* `src/token_core.rs` — the tokenizer state machine (`DatumTokenizer`);
* `src/token.rs` — tokens with buffers, token assembly and the writer
  (`DatumToken`, `DatumPipeTokenizer`);
* `src/atom.rs` — token-to-atom conversion (`DatumAtom`);
* `src/ast.rs` — the token-to-tree parser (`DatumParser`, `DatumValue`);
* `src/pipe.rs` / `src/pipelines.rs` — the composed char-to-value pipeline
  (offsets start at 0 and increase by 1 per input element, end of input is
  signalled after the last element at offset = length).

Rust strings are modelled as `List Char` (a Rust `char` is a Unicode scalar
value, exactly Lean's `Char`).  Machine integers are modelled as `Nat`/`Int`
with explicit `% 2 ^ 32` where the Rust code can wrap (the decoder's hex
accumulator), and with explicit i64 range checks where the Rust code uses
checked arithmetic (numeric parsing).  Fallible code returns `Except`.
Emission callbacks (`FnMut` sinks) are modelled by returning the list of
emitted items in order.

Finite `f64` values are the one part of the data model that is not embedded:
IEEE floating point formatting/parsing semantics are outside the scope of
this shallow embedding, so a finite float is carried as the text it was
parsed from (see `F64`).  None of the theorems below depend on float
arithmetic.
-/

/-- Equality of `Except` values is decidable (missing instance in this
toolchain; needed so concrete pipeline runs can be settled by `decide`). -/
instance {ε α : Type} [DecidableEq ε] [DecidableEq α] : DecidableEq (Except ε α)
  | .error a, .error b =>
    if h : a = b then .isTrue (congrArg Except.error h)
    else .isFalse (fun hc => h (Except.error.inj hc))
  | .error _, .ok _ => .isFalse (fun hc => Except.noConfusion hc)
  | .ok _, .error _ => .isFalse (fun hc => Except.noConfusion hc)
  | .ok a, .ok b =>
    if h : a = b then .isTrue (congrArg Except.ok h)
    else .isFalse (fun hc => h (Except.ok.inj hc))

/-- Datum character class, from `src/char_classes.rs` (`DatumCharClass`). -/
inductive DatumCharClass where
  | Content
  | Whitespace
  | Newline
  | LineComment
  | String
  | ListStart
  | ListEnd
  | SpecialID
  | Sign
  | Digit
deriving DecidableEq, Repr

/-- `DatumCharClass::potential_identifier`: Content, Sign, Digit or SpecialID. -/
def DatumCharClass.potential_identifier : DatumCharClass → Bool
  | .Content => true
  | .Sign => true
  | .Digit => true
  | .SpecialID => true
  | _ => false

/-- `DatumCharClass::numeric_start`: Sign or Digit. -/
def DatumCharClass.numeric_start : DatumCharClass → Bool
  | .Sign => true
  | .Digit => true
  | _ => false

/-- `DatumCharClass::identify`: classifies a character; meta-class characters
(backslash, forbidden control characters) return `none`. -/
def DatumCharClass.identify (v : Char) : Option DatumCharClass :=
  if v = '\n' then some .Newline
  else if v = '\t' ∨ v = ' ' then some .Whitespace
  else if v < ' ' ∨ v = '\x7f' ∨ v = '\\' then none
  else if v = ';' then some .LineComment
  else if v = '"' then some .String
  else if v = '(' then some .ListStart
  else if v = ')' then some .ListEnd
  else if v = '#' then some .SpecialID
  else if v = '-' then some .Sign
  else if '0' ≤ v ∧ v ≤ '9' then some .Digit
  else some .Content

/-- Datum character with class (`DatumChar`).  The Rust struct keeps its
fields private so that only representable pairs can be constructed; here the
constructible pairs are characterised by `DatumChar.Constructible` below.
The field `class` is renamed `cls` (`class` is reserved in Lean). -/
structure DatumChar where
  char : Char
  cls : DatumCharClass
deriving DecidableEq, Repr

/-- `DatumChar::identify`: identify an unescaped character. -/
def DatumChar.identify (v : Char) : Option DatumChar :=
  match DatumCharClass.identify v with
  | none => none
  | some cls => some ⟨v, cls⟩

/-- `DatumChar::content`: a Content character for the given value. -/
def DatumChar.content (v : Char) : DatumChar := ⟨v, .Content⟩

/-- `DatumChar::potential_identifier`: a potential identifier character for
the given value. -/
def DatumChar.potential_identifier (v : Char) : DatumChar :=
  match DatumChar.identify v with
  | none => DatumChar.content v
  | some rchr =>
    if rchr.cls.potential_identifier then rchr else DatumChar.content v

/-- The pairs producible by the three public constructors of `DatumChar`
(`identify`, `content`, `potential_identifier`); the Rust struct's fields are
private, so these are exactly the values that can exist at runtime. -/
def DatumChar.Constructible (d : DatumChar) : Prop :=
  (∃ c, DatumChar.identify c = some d) ∨
    (∃ c, d = DatumChar.content c) ∨ (∃ c, d = DatumChar.potential_identifier c)

/-- `DatumCharEmit::make_hex_digit` (input is a nibble value). -/
def DatumCharEmit.make_hex_digit (v : Nat) : Char :=
  if v ≥ 0xA then Char.ofNat ('a'.toNat + (v - 0xA)) else Char.ofNat ('0'.toNat + v)

/-- `DatumCharEmit::make_byte_hex_escape` for a byte value (`u8`).  The Rust
function returns a `[char; 5]`; modelled as the 5-element list. -/
def DatumCharEmit.make_byte_hex_escape (v : Nat) : List Char :=
  ['\\', 'x', DatumCharEmit.make_hex_digit (v >>> 4),
    DatumCharEmit.make_hex_digit (v &&& 0xF), ';']

/-- `impl From<DatumChar> for DatumCharEmit` (`src/char_classes.rs`): how to
emit a class/char pair so it reads back identically.  The Rust value is a
length-tagged `[char; 5]`; modelled as the emitted prefix list.  The
condition `v.toNat < 32 ∨ v = '\x1f'` is the source's
`((v as u32) < 32) || v == '\x1F'`, kept verbatim (the second disjunct is
subsumed by the first); `v as u8` is modelled as `v.toNat % 256`. -/
def DatumChar.emit (value : DatumChar) : List Char :=
  let v := value.char
  if value.cls = .Content then
    if v = '\n' then ['\\', 'n']
    else if v = '\r' then ['\\', 'r']
    else if v = '\t' then ['\\', 't']
    else if v.toNat < 32 ∨ v = '\x1f' then
      DatumCharEmit.make_byte_hex_escape (v.toNat % 256)
    else
      match DatumCharClass.identify v with
      | some .Content => [v]
      | _ => ['\\', v]
  else
    -- if the char was identified as this type it's self-identifying
    [v]

/-- `DatumErrorKind` from `src/core_types.rs`. -/
inductive DatumErrorKind where
  | OutOfRoom
  | Interrupted
  | BadData
  | Custom
deriving DecidableEq, Repr

/-- `DatumError` (kind and offset; messages can be compiled out and callers
must not rely on them, so they are not modelled). -/
structure DatumError where
  kind : DatumErrorKind
  offset : Nat
deriving DecidableEq, Repr

/-- `char::to_digit(radix)` from the Rust standard library: digit value of an
alphanumeric character, `none` if not a digit in the given radix. -/
def Rust.toDigit (radix : Nat) (c : Char) : Option Nat :=
  let d? : Option Nat :=
    if '0' ≤ c ∧ c ≤ '9' then some (c.toNat - '0'.toNat)
    else if 'a' ≤ c ∧ c ≤ 'z' then some (c.toNat - 'a'.toNat + 10)
    else if 'A' ≤ c ∧ c ≤ 'Z' then some (c.toNat - 'A'.toNat + 10)
    else none
  match d? with
  | some d => if d < radix then some d else none
  | none => none

/-- `char::from_u32` from the Rust standard library: `none` exactly on
surrogates and values above `0x10FFFF` (this is `Nat.isValidChar`). -/
def Rust.fromU32 (v : Nat) : Option Char :=
  if h : Nat.isValidChar v then some (Char.ofNatAux v h) else none

/-- Decoder state machine (`src/decoder.rs`, `DatumDecoderState`).  The hex
accumulator is a `u32`; its value is kept `< 2 ^ 32` by `DatumDecoder.feed`. -/
inductive DatumDecoderState where
  | Normal
  | Escaping
  | HexEscape (v : Nat)
deriving DecidableEq, Repr

namespace DatumDecoder

/-- `DatumDecoder::feed`: process one raw character, returning the new state
and the classified characters passed to the emission callback.  On error the
Rust code returns before writing the new state (the pipeline short-circuits,
so the post-error state is unobservable).  The `u32` shift `v_new <<= 4`
wraps, hence the explicit `% 2 ^ 32`. -/
def feed (state : DatumDecoderState) (char : Char) :
    Except DatumErrorKind (DatumDecoderState × List DatumChar) :=
  if char = '\r' then .ok (state, [])
  else
    match state with
    | .Normal =>
      if char = '\\' then .ok (.Escaping, [])
      else
        match DatumChar.identify char with
        | some v => .ok (.Normal, [v])
        | none => .error .BadData
    | .Escaping =>
      if char = 'r' then .ok (.Normal, [DatumChar.content '\r'])
      else if char = 'n' then .ok (.Normal, [DatumChar.content '\n'])
      else if char = 't' then .ok (.Normal, [DatumChar.content '\t'])
      else if char = 'x' then .ok (.HexEscape 0, [])
      else if char = '\n' then .error .BadData
      else .ok (.Normal, [DatumChar.content char])
    | .HexEscape v =>
      if char = ';' then
        match Rust.fromU32 v with
        | some rustchar => .ok (.Normal, [DatumChar.content rustchar])
        | none => .error .BadData
      else
        let vNew := (v <<< 4) % 4294967296
        match Rust.toDigit 16 char with
        | some digit => .ok (.HexEscape (vNew ||| digit), [])
        | none => .error .BadData

/-- `DatumDecoder::eof`: if the state is not `Normal`, reset it to `Normal`
and report `Interrupted`; the emission callback is never invoked (middle
component always `[]`). -/
def eof (state : DatumDecoderState) :
    DatumDecoderState × List DatumChar × Option DatumErrorKind :=
  if state ≠ .Normal then (.Normal, [], some .Interrupted)
  else (.Normal, [], none)

/-- Feed a list of raw characters through the decoder, collecting emissions. -/
def decodeList (state : DatumDecoderState) :
    List Char → Except DatumErrorKind (DatumDecoderState × List DatumChar)
  | [] => .ok (state, [])
  | c :: rest =>
    match feed state c with
    | .error e => .error e
    | .ok (st2, out) =>
      match decodeList st2 rest with
      | .error e => .error e
      | .ok (st3, out2) => .ok (st3, out ++ out2)

end DatumDecoder

/-- `DatumTokenType` from `src/token_core.rs`. -/
inductive DatumTokenType where
  | String
  | ID
  | SpecialID
  | Numeric
  | ListStart
  | ListEnd
deriving DecidableEq, Repr

/-- `DatumTokenizerState` from `src/token_core.rs`; offsets are `DatumOffset`
(`u64`), modelled as `Nat` (the pipeline only ever supplies list indices). -/
inductive DatumTokenizerState where
  | Start
  | LineComment
  | String (start : Nat)
  | PotentialIdentifier (start : Nat) (immediate expanded : DatumTokenType)
deriving DecidableEq, Repr

/-- `DatumTokenizerAction` from `src/token_core.rs`. -/
inductive DatumTokenizerAction where
  | Push (c : Char)
  | Token (t : DatumTokenType)
deriving DecidableEq, Repr

namespace DatumTokenizer

/-- `DatumTokenizer::start_feed`: handling for the `Start` state, also used
when re-dispatching the character that terminated a potential identifier.
Returns the new state and the `(offset, action)` pairs passed to the
callback, in order. -/
def start_feed (off : Nat) (chr : DatumChar) :
    DatumTokenizerState × List (Nat × DatumTokenizerAction) :=
  match chr.cls with
  | .Content => (.PotentialIdentifier off .ID .ID, [(off, .Push chr.char)])
  | .Whitespace => (.Start, [])
  | .Newline => (.Start, [])
  | .LineComment => (.LineComment, [])
  | .String => (.String off, [])
  | .ListStart => (.Start, [(off, .Token .ListStart)])
  | .ListEnd => (.Start, [(off, .Token .ListEnd)])
  | .SpecialID => (.PotentialIdentifier off .SpecialID .SpecialID, [])
  | .Sign => (.PotentialIdentifier off .ID .Numeric, [(off, .Push chr.char)])
  | .Digit => (.PotentialIdentifier off .Numeric .Numeric, [(off, .Push chr.char)])

/-- `DatumTokenizer::feed`: one step of the tokenizer state machine; `none`
is end of input. -/
def feed (state : DatumTokenizerState) (off : Nat) (chr : Option DatumChar) :
    Except DatumError (DatumTokenizerState × List (Nat × DatumTokenizerAction)) :=
  match state with
  | .Start =>
    match chr with
    | some chr => .ok (start_feed off chr)
    | none => .ok (.Start, [])
  | .LineComment =>
    match chr with
    | some chr =>
      if chr.cls = .Newline then .ok (.Start, []) else .ok (.LineComment, [])
    | none => .ok (.Start, [])
  | .String start =>
    match chr with
    | some chr =>
      if chr.cls = .String then .ok (.Start, [(start, .Token .String)])
      else .ok (.String start, [(off, .Push chr.char)])
    | none => .error ⟨.Interrupted, off⟩
  | .PotentialIdentifier start immediate expanded =>
    match chr with
    | none => .ok (.Start, [(start, .Token immediate)])
    | some chr =>
      if chr.cls.potential_identifier then
        .ok (.PotentialIdentifier start expanded expanded, [(off, .Push chr.char)])
      else
        match start_feed off chr with
        | (st2, out) => .ok (st2, (start, .Token immediate) :: out)

end DatumTokenizer

/-- i64::MAX. -/
def i64Max : Int := 9223372036854775807

/-- i64::MIN. -/
def i64Min : Int := -9223372036854775808

/-- Digit-accumulation loop of `i64::from_str_radix`: for each digit,
multiply by the radix and add (or, parsing a negative number, subtract) the
digit with i64 checked arithmetic.  The source checks `checked_mul` and
`checked_add`/`checked_sub` separately; since the digit is non-negative that
is equivalent to the single range check on the combined result. -/
def Rust.i64FromStrRadixCore (radix : Nat) (neg : Bool) (acc : Int) :
    List Char → Option Int
  | [] => some acc
  | c :: rest =>
    match Rust.toDigit radix c with
    | none => none
    | some d =>
      let acc2 : Int := if neg then acc * radix - d else acc * radix + d
      if acc2 < i64Min ∨ i64Max < acc2 then none
      else Rust.i64FromStrRadixCore radix neg acc2 rest

/-- `i64::from_str_radix` from the Rust standard library: an optional leading
`+` or `-` sign followed by at least one digit of the radix, with overflow
reported as an error (`none`). -/
def Rust.i64FromStrRadix (radix : Nat) (s : List Char) : Option Int :=
  match s with
  | [] => none
  | '+' :: rest =>
    if rest = [] then none else Rust.i64FromStrRadixCore radix false 0 rest
  | '-' :: rest =>
    if rest = [] then none else Rust.i64FromStrRadixCore radix true 0 rest
  | s => Rust.i64FromStrRadixCore radix false 0 s

/-- `str::parse::<i64>` is `i64::from_str_radix` with radix 10. -/
def Rust.parseI64 (s : List Char) : Option Int := Rust.i64FromStrRadix 10 s

/-- Model of an `f64` as far as this development needs it.  IEEE floating
point semantics are outside the shallow embedding; a finite float is carried
as the text it was parsed from, and the three special values the Datum format
distinguishes (`is_nan`, `is_infinite` + `is_sign_positive`) are explicit
constructors. -/
inductive F64 where
  | finite (raw : List Char)
  | nan
  | inf
  | neginf
deriving DecidableEq, Repr

/-- True when every character of `cs` is an ASCII decimal digit. -/
def allDigits (cs : List Char) : Bool := cs.all fun c => '0' ≤ c ∧ c ≤ '9'

/-- Mantissa grammar of `f64::from_str`: `Digit+ | Digit+ '.' Digit* |
Digit* '.' Digit+`. -/
def f64MantissaOk (cs : List Char) : Bool :=
  match cs.splitOn '.' with
  | [a] => allDigits a ∧ a ≠ []
  | [a, b] => allDigits a ∧ allDigits b ∧ (a ≠ [] ∨ b ≠ [])
  | _ => false

/-- Exponent grammar of `f64::from_str`: optional sign, then `Digit+`. -/
def f64ExpOk (cs : List Char) : Bool :=
  match cs with
  | '+' :: rest => allDigits rest ∧ rest ≠ []
  | '-' :: rest => allDigits rest ∧ rest ≠ []
  | rest => allDigits rest ∧ rest ≠ []

/-- Number grammar of `f64::from_str` (after the sign): a mantissa optionally
followed by `e`/`E` and an exponent. -/
def f64NumberOk (cs : List Char) : Bool :=
  match cs.splitOnP (fun c => c = 'e' ∨ c = 'E') with
  | [m] => f64MantissaOk m
  | [m, e] => f64MantissaOk m ∧ f64ExpOk e
  | _ => false

/-- `str::parse::<f64>` from the Rust standard library, to the extent the
embedding needs it: the accepted grammar is `Sign? (inf | infinity | nan |
Number)` (keywords case-insensitive); accepted finite numbers are carried as
their source text (their IEEE value is outside the embedding). -/
def Rust.parseF64 (s : List Char) : Option F64 :=
  let stripped : Bool × List Char :=
    match s with
    | '+' :: rest => (false, rest)
    | '-' :: rest => (true, rest)
    | rest => (false, rest)
  let neg := stripped.1
  let body := (stripped.2).map Char.toLower
  if body = ['i', 'n', 'f'] ∨ body = ['i', 'n', 'f', 'i', 'n', 'i', 't', 'y'] then
    some (if neg then .neginf else .inf)
  else if body = ['n', 'a', 'n'] then some .nan
  else if f64NumberOk stripped.2 then some (.finite s)
  else none

/-- `DatumToken` from `src/token.rs` (buffer type `B` instantiated with
`List Char`); integers and floats are stored as values so that every
constructible token is writable. -/
inductive DatumToken where
  | String (b : List Char)
  | ID (b : List Char)
  | SpecialID (b : List Char)
  | Integer (v : Int)
  | Float (v : F64)
  | ListStart
  | ListEnd
deriving DecidableEq, Repr

/-- `DatumToken::token_type`. -/
def DatumToken.token_type : DatumToken → DatumTokenType
  | .String _ => .String
  | .ID _ => .ID
  | .SpecialID _ => .SpecialID
  | .Integer _ => .Numeric
  | .Float _ => .Numeric
  | .ListStart => .ListStart
  | .ListEnd => .ListEnd

/-- `impl TryFrom<(DatumTokenType, B)> for DatumToken` from `src/token.rs`:
assemble a token from the tokenizer's token type and the accumulated buffer.
Numeric buffers are parsed as i64 first, then as f64; failure of both is
`BadData` ("bad numeric").  The error offset is the token's start offset. -/
def DatumToken.try_from (ty : DatumTokenType) (v : List Char) (off : Nat) :
    Except DatumError DatumToken :=
  match ty with
  | .String => .ok (.String v)
  | .ID => .ok (.ID v)
  | .SpecialID => .ok (.SpecialID v)
  | .Numeric =>
    match Rust.parseI64 v with
    | some i => .ok (.Integer i)
    | none =>
      match Rust.parseF64 v with
      | some f => .ok (.Float f)
      | none => .error ⟨.BadData, off⟩
  | .ListStart => .ok .ListStart
  | .ListEnd => .ok .ListEnd

/-- Abbreviation for Rust string buffers; also usable inside namespaces where
a constructor named `List` shadows the list type. -/
abbrev Chars : Type := List Char

/-- `{}` formatting of an i64 (`core::fmt::Display`): minus sign for
negatives, then decimal digits. -/
def Rust.i64Format (v : Int) : List Char := (toString v).toList

/-- String-payload escaping of the writer, one character of
`DatumToken::write`'s `String` branch (`src/token.rs` lines 95-119): `\\`,
`\r`, `\n`, `\t` get two-character escapes, the remaining control characters
(`'\x00'..='\x1F'` and `\x7F`) get hex escapes, and everything else —
including `"` — is written verbatim. -/
def DatumToken.writeStringChar (v : Char) : List Char :=
  if v = '\\' then ['\\', '\\']
  else if v = '\r' then ['\\', 'r']
  else if v = '\n' then ['\\', 'n']
  else if v = '\t' then ['\\', 't']
  else if ('\x00' ≤ v ∧ v ≤ '\x1f') ∨ v = '\x7f' then
    DatumCharEmit.make_byte_hex_escape (v.toNat % 256)
  else [v]

/-- `DatumToken::write` from `src/token.rs`: emit a token as Datum text.
The `Float` branch mirrors the source: the three IEEE specials get their
spellings; a finite value is formatted (here: its carried text) and `.0` is
appended when the `DatumFloatObserver` saw none of `.`/`e`/`E` in the
formatted output. -/
def DatumToken.write : DatumToken → List Char
  | .String b => '"' :: (b.map DatumToken.writeStringChar).flatten ++ ['"']
  | .ID b =>
    match b with
    | [] => ['#', '{', '}', '#']
    | v :: rest =>
      if DatumCharClass.identify v = some .Sign then
        match rest with
        | v2 :: rest2 =>
          -- business as usual
          (DatumChar.content v).emit ++ (DatumChar.content v2).emit ++
            (rest2.map fun c => (DatumChar.potential_identifier c).emit).flatten
        | [] =>
          -- lone sign
          [v]
      else
        (DatumChar.content v).emit ++
          (rest.map fun c => (DatumChar.potential_identifier c).emit).flatten
  | .SpecialID b =>
    '#' :: (b.map fun c => (DatumChar.potential_identifier c).emit).flatten
  | .Integer v => Rust.i64Format v
  | .Float f =>
    match f with
    | .nan => ['#', 'i', '+', 'n', 'a', 'n', '.', '0']
    | .inf => ['#', 'i', '+', 'i', 'n', 'f', '.', '0']
    | .neginf => ['#', 'i', '-', 'i', 'n', 'f', '.', '0']
    | .finite raw =>
      if raw.any fun c => c = '.' ∨ c = 'e' ∨ c = 'E' then raw
      else raw ++ ['.', '0']
  | .ListStart => ['(']
  | .ListEnd => [')']

/-- `u8::to_ascii_lowercase` / `char::to_ascii_lowercase`. -/
def Rust.toAsciiLower (c : Char) : Char :=
  if 'A' ≤ c ∧ c ≤ 'Z' then Char.ofNat (c.toNat + 32) else c

/-- `str::eq_ignore_ascii_case`.  The byte-wise Rust comparison agrees with
this character-wise one: for the all-ASCII patterns it is used with, a
non-ASCII character on the left can match neither lengthwise nor bytewise. -/
def Rust.eqIgnoreAsciiCase (a b : List Char) : Bool :=
  a.map Rust.toAsciiLower == b.map Rust.toAsciiLower

/-- `DatumAtom` from `src/atom.rs` (buffer type `B` instantiated with
`List Char`). -/
inductive DatumAtom where
  | String (b : List Char)
  | Symbol (b : List Char)
  | Integer (v : Int)
  | Float (v : F64)
  | Boolean (b : Bool)
  | Nil
deriving DecidableEq, Repr

/-- `impl TryFrom<DatumToken> for DatumAtom` from `src/atom.rs`: the
Special-ID grammar.  `off` is the token's offset, used in errors.  A string
slice `&b[1..]` after an ASCII head is `b.drop 1`. -/
def DatumAtom.try_from (token : DatumToken) (off : Nat) :
    Except DatumError DatumAtom :=
  match token with
  | .String b => .ok (.String b)
  | .ID b => .ok (.Symbol b)
  | .SpecialID b =>
    if Rust.eqIgnoreAsciiCase b ['t'] then .ok (.Boolean true)
    else if Rust.eqIgnoreAsciiCase b ['f'] then .ok (.Boolean false)
    else if Rust.eqIgnoreAsciiCase b ['n', 'i', 'l'] then .ok .Nil
    else if b = ['{', '}', '#'] then .ok (.Symbol [])
    else if Rust.eqIgnoreAsciiCase b ['i', '+', 'n', 'a', 'n', '.', '0'] then
      .ok (.Float .nan)
    else if Rust.eqIgnoreAsciiCase b ['i', '+', 'i', 'n', 'f', '.', '0'] then
      .ok (.Float .inf)
    else if Rust.eqIgnoreAsciiCase b ['i', '-', 'i', 'n', 'f', '.', '0'] then
      .ok (.Float .neginf)
    else if (match b with | c :: _ => c == 'x' || c == 'X' | [] => false) then
      match Rust.i64FromStrRadix 16 (b.drop 1) with
      | some v => .ok (.Integer v)
      | none => .error ⟨.BadData, off⟩
    else .error ⟨.BadData, off⟩
  | .Integer v => .ok (.Integer v)
  | .Float v => .ok (.Float v)
  | .ListStart => .error ⟨.BadData, off⟩
  | .ListEnd => .error ⟨.BadData, off⟩

/-- `DatumAtom::write` from `src/atom.rs`: atoms are written via the
corresponding token's writer (the crate's later revisions name the `ID`
token `Symbol`; the writer is identical). -/
def DatumAtom.write : DatumAtom → List Char
  | .String v => (DatumToken.String v).write
  | .Symbol v => (DatumToken.ID v).write
  | .Integer v => (DatumToken.Integer v).write
  | .Float v => (DatumToken.Float v).write
  | .Boolean true => ['#', 't']
  | .Boolean false => ['#', 'f']
  | .Nil => ['#', 'n', 'i', 'l']

/-- `DatumValue` from `src/ast.rs`: atom or list. -/
inductive DatumValue where
  | Atom (a : DatumAtom)
  | List (l : List DatumValue)

mutual

/-- Modelled from the spec: `writer.rs` (`DatumWriter`) is not under `src/`
(only `mod writer;` and its callers are), so tree writing follows §4.6: an
atom is written by the atom writer, a list as `(`, the children separated by
a space, `)`. -/
def DatumValue.write : DatumValue → Chars
  | .Atom a => a.write
  | .List l =>
    ('(' :: ((datumWriteEach l).intersperse [' ']).flatten) ++ [')']

/-- Texts of the elements of a list value, in order (helper for
`DatumValue.write`). -/
def datumWriteEach : List DatumValue → List Chars
  | [] => []
  | v :: rest => DatumValue.write v :: datumWriteEach rest

end

/-- Parser state from `src/ast.rs` (`DatumParser`): offset at which the
outermost in-progress value started, and the stack of open list buffers.
The Rust `Vec` pushes/pops at the end; the model keeps the top of the stack
at the head of the list, and each buffer in child order. -/
structure DatumParserState where
  start : Nat
  stack : List (List DatumValue)

namespace DatumParser

/-- `DatumParser::feed_value`: deliver a completed value — append it to the
top open list, or emit it as a top-level value (at the offset where the
outermost value started) when no list is open. -/
def feed_value (st : DatumParserState) (v : DatumValue) :
    DatumParserState × List (Nat × DatumValue) :=
  match st.stack with
  | [] => (st, [(st.start, v)])
  | list :: rest => (⟨st.start, (list ++ [v]) :: rest⟩, [])

/-- `DatumParser::feed`: one token (or end of input, `none`) into the
parser, returning the new state and emitted `(offset, value)` pairs. -/
def feed (st : DatumParserState) (off : Nat) (token : Option DatumToken) :
    Except DatumError (DatumParserState × List (Nat × DatumValue)) :=
  match token with
  | none =>
    if !st.stack.isEmpty then .error ⟨.Interrupted, off⟩ else .ok (st, [])
  | some token =>
    -- outermost value started here
    let st := if st.stack.isEmpty then ⟨off, st.stack⟩ else st
    match token.token_type with
    | .ListStart => .ok (⟨st.start, [] :: st.stack⟩, [])
    | .ListEnd =>
      match st.stack with
      | v :: rest => .ok (feed_value ⟨st.start, rest⟩ (.List v))
      | [] => .error ⟨.BadData, off⟩
    | _ =>
      match DatumAtom.try_from token off with
      | .error e => .error e
      | .ok v => .ok (feed_value st (.Atom v))

end DatumParser

/-- State of the composed char-to-value pipeline
(`datum_char_to_value_pipeline`): decoder state, tokenizer state, the
`DatumPipeTokenizer` buffer, and the parser state. -/
structure DatumPipelineState where
  dec : DatumDecoderState
  tok : DatumTokenizerState
  buf : Chars
  psr : DatumParserState

namespace DatumPipeline

/-- The initial composed pipeline (all stages `Default`). -/
def init : DatumPipelineState := ⟨.Normal, .Start, [], ⟨0, []⟩⟩

/-- `DatumPipeTokenizer::transform_action` composed with the parser: a
`Push` action appends to the token buffer; a `Token` action assembles the
token from the buffer (`DatumToken::try_from`), clears the buffer and feeds
the token to the parser at the action's offset. -/
def applyAction (st : DatumPipelineState) (act : Nat × DatumTokenizerAction) :
    Except DatumError (DatumPipelineState × List (Nat × DatumValue)) :=
  match act with
  | (_, .Push c) => .ok ({ st with buf := st.buf ++ [c] }, [])
  | (off, .Token ty) =>
    match DatumToken.try_from ty st.buf off with
    | .error e => .error e
    | .ok token =>
      match DatumParser.feed st.psr off (some token) with
      | .error e => .error e
      | .ok (p2, vals) => .ok ({ st with buf := [], psr := p2 }, vals)

/-- Apply a list of tokenizer actions in order, collecting emitted values. -/
def applyActions (st : DatumPipelineState) :
    List (Nat × DatumTokenizerAction) →
      Except DatumError (DatumPipelineState × List (Nat × DatumValue))
  | [] => .ok (st, [])
  | act :: rest =>
    match applyAction st act with
    | .error e => .error e
    | .ok (st2, vals) =>
      match applyActions st2 rest with
      | .error e => .error e
      | .ok (st3, vals2) => .ok (st3, vals ++ vals2)

/-- Feed one classified character (emitted by the decoder at offset `off`)
into tokenizer, token assembly and parser. -/
def feedClassified (st : DatumPipelineState) (off : Nat) (dc : DatumChar) :
    Except DatumError (DatumPipelineState × List (Nat × DatumValue)) :=
  match DatumTokenizer.feed st.tok off (some dc) with
  | .error e => .error e
  | .ok (t2, acts) => applyActions { st with tok := t2 } acts

/-- Feed a list of classified characters, all at offset `off`. -/
def feedClassifiedList (st : DatumPipelineState) (off : Nat) :
    List DatumChar →
      Except DatumError (DatumPipelineState × List (Nat × DatumValue))
  | [] => .ok (st, [])
  | dc :: rest =>
    match feedClassified st off dc with
    | .error e => .error e
    | .ok (st2, vals) =>
      match feedClassifiedList st2 off rest with
      | .error e => .error e
      | .ok (st3, vals2) => .ok (st3, vals ++ vals2)

/-- Feed one raw character at offset `off` through the whole pipeline.  As in
`DatumComposePipe`, everything the decoder emits while processing the
character at `off` is forwarded downstream at offset `off` (no escape
sequence appears in any input these theorems run end to end, so start-of-
escape against end-of-escape attribution is not exercised). -/
def feedRaw (st : DatumPipelineState) (off : Nat) (c : Char) :
    Except DatumError (DatumPipelineState × List (Nat × DatumValue)) :=
  match DatumDecoder.feed st.dec c with
  | .error k => .error ⟨k, off⟩
  | .ok (d2, dcs) => feedClassifiedList { st with dec := d2 } off dcs

/-- End of input at offset `off`: per `DatumComposePipe`, the decoder handles
end of input first (emitting nothing, possibly `Interrupted`), then the
tokenizer's end-of-input actions run through assembly and parser, then the
parser sees end of input. -/
def feedEof (st : DatumPipelineState) (off : Nat) :
    Except DatumError (List (Nat × DatumValue)) :=
  match DatumDecoder.eof st.dec with
  | (_, _, some k) => .error ⟨k, off⟩
  | (d2, _, none) =>
    match DatumTokenizer.feed st.tok off none with
    | .error e => .error e
    | .ok (t2, acts) =>
      match applyActions { st with dec := d2, tok := t2 } acts with
      | .error e => .error e
      | .ok (st2, vals) =>
        match DatumParser.feed st2.psr off none with
        | .error e => .error e
        | .ok (_, vals2) => .ok (vals ++ vals2)

/-- Feed the remaining raw characters starting at offset `off`, then end of
input (this is `feed_iter_to_vec` with `eof = true`: offsets are the element
indices, end of input arrives at offset = length). -/
def runFrom (st : DatumPipelineState) (off : Nat) :
    List Char → Except DatumError (List (Nat × DatumValue))
  | [] => feedEof st off
  | c :: rest =>
    match feedRaw st off c with
    | .error e => .error e
    | .ok (st2, vals) =>
      match runFrom st2 (off + 1) rest with
      | .error e => .error e
      | .ok vals2 => .ok (vals ++ vals2)

/-- Run the whole char-to-value pipeline on an input string: the list of
`(start offset, value)` pairs it emits, or its first error. -/
def run (input : List Char) : Except DatumError (List (Nat × DatumValue)) :=
  runFrom init 0 input

end DatumPipeline

/-! ## Helper lemmas -/

theorem lor16_eq_add (q d : Nat) (hd : d < 16) : (16 * q) ||| d = 16 * q + d := by
  apply Nat.eq_of_testBit_eq
  intro i
  rw [Nat.testBit_lor]
  have hq : 16 * q = q <<< 4 := by rw [Nat.shiftLeft_eq]; ring
  rcases Nat.lt_or_ge i 4 with hi | hi
  · have h16 : (16 * q).testBit i = false := by
      rw [hq, Nat.testBit_shiftLeft]
      simp [Nat.not_le.mpr hi]
    have hmod : (16 * q + d) % 2 ^ 4 = d := by omega
    have hlow := Nat.testBit_mod_two_pow (16 * q + d) 4 i
    rw [hmod] at hlow
    rw [h16, Bool.false_or, hlow]
    simp [hi]
  · have hd4 : d.testBit i = false := by
      apply Nat.testBit_lt_two_pow
      calc d < 16 := hd
        _ = 2 ^ 4 := by norm_num
        _ ≤ 2 ^ i := Nat.pow_le_pow_right (by norm_num) hi
    have h1 : (16 * q).testBit i = q.testBit (i - 4) := by
      rw [hq, Nat.testBit_shiftLeft]
      simp [hi]
    have h2 : (16 * q + d).testBit i = q.testBit (i - 4) := by
      have hsplit : i = 4 + (i - 4) := by omega
      have hdiv : (16 * q + d) >>> 4 = q := by
        rw [Nat.shiftRight_eq_div_pow]
        omega
      rw [hsplit, ← Nat.testBit_shiftRight, hdiv]
      congr 1
      omega
    rw [hd4, Bool.or_false, h1, h2]

theorem Rust.toDigit_lt_radix {radix : Nat} {c : Char} {d : Nat}
    (h : Rust.toDigit radix c = some d) : d < radix := by
  simp only [Rust.toDigit] at h
  split at h
  · split at h
    · exact Option.some.inj h ▸ ‹_›
    · exact Option.noConfusion h
  · exact Option.noConfusion h

/-! ## Claim theorems -/

/-- Claim C1: the claim states that every tree written by the writer parses
back to an equal tree.  The code falsifies it: the writer does not escape a
double quote inside a string payload, so the tree `Atom (String "\"")` is
written as the three characters `"""`, and running that text back through
decoder, tokenizer and parser fails (Interrupted at offset 3, after an
empty string value) instead of yielding the original tree. -/
theorem c1_roundtrip_fails_on_quote_in_string :
    DatumValue.write (.Atom (.String ['"'])) = ['"', '"', '"'] ∧
      DatumPipeline.run ['"', '"', '"'] = .error ⟨.Interrupted, 3⟩ :=
  ⟨rfl, rfl⟩

/-- Claim C2: the claim states the writer's String branch force-escapes `"`
as `\"`.  The code does not: the quote is written verbatim (first and second
conjunct), while the claim's other escape rules (`\n`, `\t`, `\r`, hex
escapes for the remaining control characters including `\x7F`, verbatim
Content characters) do hold (third conjunct). -/
theorem c2_string_writer_does_not_escape_quote :
    (DatumToken.String ['"']).write = ['"', '"', '"'] ∧
      (DatumToken.String ['"']).write ≠ ['"', '\\', '"', '"'] ∧
      (DatumToken.String ['a', '\n', '\t', '\r', '\x01', '\x7f', 'b']).write =
        ['"', 'a', '\\', 'n', '\\', 't', '\\', 'r', '\\', 'x', '0', '1', ';',
          '\\', 'x', '7', 'f', ';', 'b', '"'] := by
  refine ⟨rfl, ?_, rfl⟩
  decide

/-- Claim C4: a `ListEnd` token with an empty open-list stack is `BadData`
at that token's offset; the whole input `")"` fails with `BadData` at offset
0; end of input with a non-empty stack is `Interrupted`; end of input with
an empty stack succeeds with no error and no output. -/
theorem c4_parser_terminal_conditions :
    (∀ (s off : Nat),
      DatumParser.feed ⟨s, []⟩ off (some .ListEnd) = .error ⟨.BadData, off⟩) ∧
      DatumPipeline.run [')'] = .error ⟨.BadData, 0⟩ ∧
      (∀ (st : DatumParserState) (off : Nat), st.stack ≠ [] →
        DatumParser.feed st off none = .error ⟨.Interrupted, off⟩) ∧
      (∀ (st : DatumParserState) (off : Nat), st.stack = [] →
        DatumParser.feed st off none = .ok (st, [])) := by
  refine ⟨fun s off => rfl, rfl, ?_, ?_⟩
  · intro st off h
    obtain ⟨s, stk⟩ := st
    cases stk with
    | nil => exact absurd rfl h
    | cons a rest => rfl
  · intro st off h
    obtain ⟨s, stk⟩ := st
    cases stk with
    | nil => rfl
    | cons a rest => exact absurd h (by simp)

/-- Witness for C4 at concrete inputs. -/
theorem c4_parser_terminal_conditions_witness :
    DatumParser.feed ⟨5, [[DatumValue.Atom .Nil]]⟩ 7 none =
        .error ⟨.Interrupted, 7⟩ ∧
      DatumParser.feed ⟨5, []⟩ 7 none = .ok (⟨5, []⟩, []) :=
  ⟨c4_parser_terminal_conditions.2.2.1 ⟨5, [[DatumValue.Atom .Nil]]⟩ 7 (by simp),
    c4_parser_terminal_conditions.2.2.2 ⟨5, []⟩ 7 rfl⟩

/-- Claim C8: decoder end of input while not in `Normal` state reports
`Interrupted` and resets the state to `Normal` (so the instance is reusable),
emitting nothing; end of input in `Normal` state succeeds and emits
nothing. -/
theorem c8_decoder_eof_interrupted_resets :
    (∀ s : DatumDecoderState, s ≠ .Normal →
      DatumDecoder.eof s = (.Normal, [], some .Interrupted)) ∧
      DatumDecoder.eof .Normal = (.Normal, [], none) := by
  refine ⟨?_, rfl⟩
  intro s hs
  simp [DatumDecoder.eof, hs]

/-- Witness for C8 at concrete non-`Normal` states. -/
theorem c8_decoder_eof_interrupted_resets_witness :
    DatumDecoder.eof .Escaping = (.Normal, [], some .Interrupted) ∧
      DatumDecoder.eof (.HexEscape 7) = (.Normal, [], some .Interrupted) :=
  ⟨c8_decoder_eof_interrupted_resets.1 .Escaping (by decide),
    c8_decoder_eof_interrupted_resets.1 (.HexEscape 7) (by decide)⟩

/-- Claim C5: in the `PotentialIdentifier` state, a character whose class is
not a potential-identifier class first closes the pending token with its
"immediate" kind at the stored start offset, and then that same character is
processed exactly as the `Start` state handler `start_feed` would process it
(second conjunct: the `Start` state is precisely `start_feed`); the third
conjunct shows the re-dispatch on a concrete input (a `)` terminating a
pending symbol also emits the `ListEnd` token). -/
theorem c5_potential_identifier_redispatch :
    (∀ (start off : Nat) (immediate expanded : DatumTokenType) (chr : DatumChar),
      chr.cls.potential_identifier = false →
      DatumTokenizer.feed (.PotentialIdentifier start immediate expanded) off
          (some chr) =
        .ok ((DatumTokenizer.start_feed off chr).1,
          (start, .Token immediate) :: (DatumTokenizer.start_feed off chr).2)) ∧
      (∀ (off : Nat) (chr : DatumChar),
        DatumTokenizer.feed .Start off (some chr) =
          .ok (DatumTokenizer.start_feed off chr)) ∧
      DatumTokenizer.feed (.PotentialIdentifier 0 .ID .ID) 1
          (some ⟨')', .ListEnd⟩) =
        .ok (.Start, [(0, .Token .ID), (1, .Token .ListEnd)]) := by
  refine ⟨?_, fun off chr => rfl, rfl⟩
  intro start off immediate expanded chr h
  simp only [DatumTokenizer.feed, h, Bool.false_eq_true, if_false]

/-- Witness for C5 at a concrete non-continuation character. -/
theorem c5_potential_identifier_redispatch_witness :
    DatumTokenizer.feed (.PotentialIdentifier 3 .ID .Numeric) 9
        (some ⟨'(', .ListStart⟩) =
      .ok ((DatumTokenizer.start_feed 9 ⟨'(', .ListStart⟩).1,
        (3, .Token .ID) :: (DatumTokenizer.start_feed 9 ⟨'(', .ListStart⟩).2) :=
  c5_potential_identifier_redispatch.1 3 9 .ID .Numeric ⟨'(', .ListStart⟩ rfl

/-- Claim C6: `"-10"` parses to the single value `Integer (-10)` and `"-"`
alone to the single value `Symbol "-"`; a Sign character opens a token with
immediate kind `ID` (symbol) and expanded kind `Numeric`, and one further
potential-identifier character switches the pending kind to `Numeric`. -/
theorem c6_sign_symbol_vs_numeric :
    DatumPipeline.run ['-', '1', '0'] = .ok [(0, .Atom (.Integer (-10)))] ∧
      DatumPipeline.run ['-'] = .ok [(0, .Atom (.Symbol ['-']))] ∧
      (∀ (off : Nat) (c : Char),
        DatumTokenizer.start_feed off ⟨c, .Sign⟩ =
          (.PotentialIdentifier off .ID .Numeric, [(off, .Push c)])) ∧
      (∀ (start off : Nat) (chr : DatumChar),
        chr.cls.potential_identifier = true →
        DatumTokenizer.feed (.PotentialIdentifier start .ID .Numeric) off
            (some chr) =
          .ok (.PotentialIdentifier start .Numeric .Numeric,
            [(off, .Push chr.char)])) := by
  refine ⟨rfl, rfl, fun off c => rfl, ?_⟩
  intro start off chr h
  simp only [DatumTokenizer.feed, h, if_true]

/-- Witness for C6 at a concrete continuation character (a digit). -/
theorem c6_sign_symbol_vs_numeric_witness :
    DatumTokenizer.feed (.PotentialIdentifier 0 .ID .Numeric) 1
        (some ⟨'1', .Digit⟩) =
      .ok (.PotentialIdentifier 0 .Numeric .Numeric, [(1, .Push '1')]) :=
  c6_sign_symbol_vs_numeric.2.2.2 0 1 ⟨'1', .Digit⟩ rfl

/-- Claim C9: the decoder's hex accumulator is a `u32` shifted left 4 bits
per digit with no overflow check, so accumulation is modulo `2 ^ 32` (first
conjunct); consequently the overlong escape `\x100000041;` (which denotes
`0x100000041`, far above the Unicode range) silently decodes to the single
Content character `A` = `0x41` (second conjunct). -/
theorem c9_hex_escape_accumulator_wraps :
    (∀ (v d : Nat) (c : Char), v < 4294967296 → Rust.toDigit 16 c = some d →
      DatumDecoder.feed (.HexEscape v) c =
        .ok (.HexEscape ((16 * v + d) % 4294967296), [])) ∧
      DatumDecoder.decodeList .Normal
          ['\\', 'x', '1', '0', '0', '0', '0', '0', '0', '4', '1', ';'] =
        .ok (.Normal, [DatumChar.content 'A']) := by
  refine ⟨?_, by decide⟩
  intro v d c hv hd
  have hcr : c ≠ '\r' := by
    intro h
    subst h
    rw [show Rust.toDigit 16 '\r' = none from by decide] at hd
    exact Option.noConfusion hd
  have hsc : c ≠ ';' := by
    intro h
    subst h
    rw [show Rust.toDigit 16 ';' = none from by decide] at hd
    exact Option.noConfusion hd
  have hd16 : d < 16 := Rust.toDigit_lt_radix hd
  simp only [DatumDecoder.feed, if_neg hcr, if_neg hsc, hd]
  have harith : ((v <<< 4) % 4294967296) ||| d = (16 * v + d) % 4294967296 := by
    rw [Nat.shiftLeft_eq]
    have hv16 : v * 2 ^ 4 = 16 * v := by ring
    rw [hv16]
    obtain ⟨q, hq⟩ : ∃ q, (16 * v) % 4294967296 = 16 * q :=
      ⟨(16 * v) % 4294967296 / 16, by omega⟩
    rw [hq, lor16_eq_add q d hd16]
    omega
  rw [harith]

/-- Witness for C9's accumulator step at a concrete wrapping input (the
accumulator already holds `0x10000004`; the digit `1` pushes it past
`2 ^ 32`). -/
theorem c9_hex_escape_accumulator_wraps_witness :
    DatumDecoder.feed (.HexEscape 268435460) '1' =
      .ok (.HexEscape ((16 * 268435460 + 1) % 4294967296), []) :=
  c9_hex_escape_accumulator_wraps.1 268435460 1 '1' (by decide) (by decide)

theorem Rust.eqIgnoreAsciiCase_cons_head_ne {c p : Char} (cs ps : List Char)
    (h : Rust.toAsciiLower c ≠ Rust.toAsciiLower p) :
    Rust.eqIgnoreAsciiCase (c :: cs) (p :: ps) = false := by
  unfold Rust.eqIgnoreAsciiCase
  rw [beq_eq_false_iff_ne]
  intro hc
  simp only [List.map_cons, List.cons.injEq] at hc
  exact h hc.1

/-- Claim C10: atom conversion of a SpecialID token starting with `x`/`X`
delegates the remainder to signed base-16 i64 parsing, so a sign is
accepted: `#x-5` converts to `Integer (-5)` and `#x+5` to `Integer 5`;
an empty remainder, a non-hex-digit after the optional sign, or an
i64-overflowing value yield `BadData` (concretely `x`, `x-g`, and
`x8000000000000000` = `2 ^ 63`; in general every remainder rejected by
`i64::from_str_radix` is `BadData` at the token's offset). -/
theorem c10_specialid_hex_signed_parse :
    (∀ off : Nat, DatumAtom.try_from (.SpecialID ['x', '-', '5']) off =
      .ok (.Integer (-5))) ∧
      (∀ off : Nat, DatumAtom.try_from (.SpecialID ['x', '+', '5']) off =
        .ok (.Integer 5)) ∧
      (∀ off : Nat, DatumAtom.try_from (.SpecialID ['x']) off =
        .error ⟨.BadData, off⟩) ∧
      (∀ off : Nat, DatumAtom.try_from (.SpecialID ['x', '-', 'g']) off =
        .error ⟨.BadData, off⟩) ∧
      (∀ off : Nat, DatumAtom.try_from (.SpecialID ['x', '8', '0', '0', '0',
          '0', '0', '0', '0', '0', '0', '0', '0', '0', '0', '0', '0']) off =
        .error ⟨.BadData, off⟩) ∧
      (∀ (rest : List Char) (off : Nat), Rust.i64FromStrRadix 16 rest = none →
        DatumAtom.try_from (.SpecialID ('x' :: rest)) off =
          .error ⟨.BadData, off⟩) := by
  refine ⟨fun off => rfl, fun off => rfl, fun off => rfl, fun off => rfl,
    fun off => rfl, ?_⟩
  intro rest off hnone
  have h1 := Rust.eqIgnoreAsciiCase_cons_head_ne (c := 'x') (p := 't') rest []
    (by decide)
  have h2 := Rust.eqIgnoreAsciiCase_cons_head_ne (c := 'x') (p := 'f') rest []
    (by decide)
  have h3 := Rust.eqIgnoreAsciiCase_cons_head_ne (c := 'x') (p := 'n') rest
    ['i', 'l'] (by decide)
  have h4 := Rust.eqIgnoreAsciiCase_cons_head_ne (c := 'x') (p := 'i') rest
    ['+', 'n', 'a', 'n', '.', '0'] (by decide)
  have h5 := Rust.eqIgnoreAsciiCase_cons_head_ne (c := 'x') (p := 'i') rest
    ['+', 'i', 'n', 'f', '.', '0'] (by decide)
  have h6 := Rust.eqIgnoreAsciiCase_cons_head_ne (c := 'x') (p := 'i') rest
    ['-', 'i', 'n', 'f', '.', '0'] (by decide)
  have h7 : ('x' :: rest ≠ ['{', '}', '#']) := by
    intro hc
    simp only [List.cons.injEq] at hc
    exact absurd hc.1 (by decide)
  simp only [DatumAtom.try_from, h1, h2, h3, h4, h5, h6, if_neg h7,
    Bool.false_eq_true, if_false, List.drop_succ_cons, List.drop_zero, hnone]
  rfl

/-- Witness for C10's general rejection clause: the remainder `z` is not a
hex digit, so `#xz` is `BadData`. -/
theorem c10_specialid_hex_signed_parse_witness :
    DatumAtom.try_from (.SpecialID ['x', 'z']) 9 = .error ⟨.BadData, 9⟩ :=
  c10_specialid_hex_signed_parse.2.2.2.2.2 ['z'] 9 (by decide)

theorem DatumCharClass.identify_some_ne {v : Char} {k : DatumCharClass}
    (h : DatumCharClass.identify v = some k) : v ≠ '\r' ∧ v ≠ '\\' := by
  constructor
  · intro he
    subst he
    rw [show DatumCharClass.identify '\r' = none from by decide] at h
    exact Option.noConfusion h
  · intro he
    subst he
    rw [show DatumCharClass.identify '\\' = none from by decide] at h
    exact Option.noConfusion h

theorem DatumDecoder.feed_normal_identified {v : Char} {k : DatumCharClass}
    (h : DatumCharClass.identify v = some k) :
    DatumDecoder.feed .Normal v = .ok (.Normal, [⟨v, k⟩]) := by
  obtain ⟨hcr, hbs⟩ := DatumCharClass.identify_some_ne h
  simp only [DatumDecoder.feed, if_neg hcr, if_neg hbs, DatumChar.identify, h]

theorem DatumDecoder.feed_escaping_other {v : Char} (hr : v ≠ 'r')
    (hn : v ≠ 'n') (ht : v ≠ 't') (hx : v ≠ 'x') (hnl : v ≠ '\n')
    (hcr : v ≠ '\r') :
    DatumDecoder.feed .Escaping v = .ok (.Normal, [DatumChar.content v]) := by
  simp only [DatumDecoder.feed, if_neg hcr, if_neg hr, if_neg hn, if_neg ht,
    if_neg hx, if_neg hnl]

theorem DatumDecoder.decodeList_one {st st2 : DatumDecoderState} {c : Char}
    {out : List DatumChar} (h : DatumDecoder.feed st c = .ok (st2, out)) :
    DatumDecoder.decodeList st [c] = .ok (st2, out) := by
  simp [DatumDecoder.decodeList, h]

theorem DatumDecoder.decodeList_two {st s1 s2 : DatumDecoderState}
    {c1 c2 : Char} {o1 o2 : List DatumChar}
    (h1 : DatumDecoder.feed st c1 = .ok (s1, o1))
    (h2 : DatumDecoder.feed s1 c2 = .ok (s2, o2)) :
    DatumDecoder.decodeList st [c1, c2] = .ok (s2, o1 ++ o2) := by
  simp [DatumDecoder.decodeList, h1, h2]

theorem DatumDecoder.decode_hex_escape_byte (b : Nat) (hb : b < 32) :
    DatumDecoder.decodeList .Normal (DatumCharEmit.make_byte_hex_escape b) =
      .ok (.Normal, [DatumChar.content (Char.ofNat b)]) := by
  interval_cases b <;> decide

theorem DatumChar.constructible_cases {d : DatumChar} (h : d.Constructible) :
    d.cls = .Content ∨ DatumCharClass.identify d.char = some d.cls := by
  rcases h with ⟨c, hc⟩ | ⟨c, hc⟩ | ⟨c, hc⟩
  · unfold DatumChar.identify at hc
    cases hcl : DatumCharClass.identify c with
    | none => rw [hcl] at hc; exact Option.noConfusion hc
    | some k =>
      rw [hcl] at hc
      injection hc with hc
      subst hc
      right
      exact hcl
  · subst hc
    left
    rfl
  · subst hc
    unfold DatumChar.potential_identifier
    cases hcl : DatumChar.identify c with
    | none => left; rfl
    | some rchr =>
      dsimp only
      by_cases hpot : rchr.cls.potential_identifier
      · rw [if_pos hpot]
        unfold DatumChar.identify at hcl
        cases hcl2 : DatumCharClass.identify c with
        | none => rw [hcl2] at hcl; exact Option.noConfusion hcl
        | some k =>
          rw [hcl2] at hcl
          injection hcl with hcl
          subst hcl
          right
          exact hcl2
      · rw [if_neg hpot]
        left
        rfl

/-- Claim C3: every constructible classified character (built via
`identify`, `content` or `potential_identifier`) decodes from its emitted
escape form back to exactly itself (single emission, decoder back in
`Normal` state); in particular every `content c` — the write-as-escaped form
of an arbitrary character — decodes back to exactly `c` classified as
Content. -/
theorem c3_classified_char_emit_decode_roundtrip :
    (∀ d : DatumChar, d.Constructible →
      DatumDecoder.decodeList .Normal d.emit = .ok (.Normal, [d])) ∧
      (∀ c : Char,
        DatumDecoder.decodeList .Normal (DatumChar.content c).emit =
          .ok (.Normal, [DatumChar.content c])) := by
  have main : ∀ d : DatumChar, d.Constructible →
      DatumDecoder.decodeList .Normal d.emit = .ok (.Normal, [d]) := by
    intro d hcon
    obtain ⟨v, k⟩ := d
    by_cases hk : k = DatumCharClass.Content
    case neg =>
      have hid : DatumCharClass.identify v = some k := by
        rcases DatumChar.constructible_cases hcon with h | h
        · exact absurd h hk
        · exact h
      have hemit : DatumChar.emit ⟨v, k⟩ = [v] := by
        simp only [DatumChar.emit, if_neg hk]
      rw [hemit]
      exact DatumDecoder.decodeList_one (DatumDecoder.feed_normal_identified hid)
    case pos =>
      subst hk
      by_cases h1 : v = '\n'
      · subst h1; decide
      by_cases h2 : v = '\r'
      · subst h2; decide
      by_cases h3 : v = '\t'
      · subst h3; decide
      by_cases h4 : v.toNat < 32 ∨ v = '\x1f'
      · have hb : v.toNat < 32 := by
          rcases h4 with h | h
          · exact h
          · subst h; decide
        have hemit : DatumChar.emit ⟨v, DatumCharClass.Content⟩ =
            DatumCharEmit.make_byte_hex_escape (v.toNat % 256) := by
          simp only [DatumChar.emit, if_pos rfl, if_neg h1, if_neg h2,
            if_neg h3, if_pos h4]
          exact if_pos trivial
        rw [hemit, Nat.mod_eq_of_lt (by omega : v.toNat < 256),
          DatumDecoder.decode_hex_escape_byte v.toNat hb, Char.ofNat_toNat]
        rfl
      · cases hcl : DatumCharClass.identify v with
        | some cls =>
          by_cases hcc : cls = DatumCharClass.Content
          · subst hcc
            have hemit : DatumChar.emit ⟨v, DatumCharClass.Content⟩ = [v] := by
              simp only [DatumChar.emit, if_pos rfl, if_neg h1, if_neg h2,
                if_neg h3, if_neg h4, hcl]
              exact if_pos trivial
            rw [hemit]
            exact DatumDecoder.decodeList_one
              (DatumDecoder.feed_normal_identified hcl)
          · have hemit : DatumChar.emit ⟨v, DatumCharClass.Content⟩ =
                ['\\', v] := by
              simp only [DatumChar.emit, if_pos rfl, if_neg h1, if_neg h2,
                if_neg h3, if_neg h4, hcl]
              cases cls
              case Content => exact absurd rfl hcc
              all_goals rfl
            have hvr : v ≠ 'r' := by
              intro he
              subst he
              rw [show DatumCharClass.identify 'r' = some .Content from
                by decide] at hcl
              injection hcl with hcl
              exact hcc hcl.symm
            have hvn : v ≠ 'n' := by
              intro he
              subst he
              rw [show DatumCharClass.identify 'n' = some .Content from
                by decide] at hcl
              injection hcl with hcl
              exact hcc hcl.symm
            have hvt : v ≠ 't' := by
              intro he
              subst he
              rw [show DatumCharClass.identify 't' = some .Content from
                by decide] at hcl
              injection hcl with hcl
              exact hcc hcl.symm
            have hvx : v ≠ 'x' := by
              intro he
              subst he
              rw [show DatumCharClass.identify 'x' = some .Content from
                by decide] at hcl
              injection hcl with hcl
              exact hcc hcl.symm
            rw [hemit, DatumDecoder.decodeList_two
              (show DatumDecoder.feed .Normal '\\' = .ok (.Escaping, []) from
                by decide)
              (DatumDecoder.feed_escaping_other hvr hvn hvt hvx h1 h2)]
            rfl
        | none =>
          have hemit : DatumChar.emit ⟨v, DatumCharClass.Content⟩ =
              ['\\', v] := by
            simp only [DatumChar.emit, if_pos rfl, if_neg h1, if_neg h2,
              if_neg h3, if_neg h4, hcl]
            exact if_pos trivial
          have hvr : v ≠ 'r' := by
            intro he
            subst he
            rw [show DatumCharClass.identify 'r' = some .Content from
              by decide] at hcl
            exact Option.noConfusion hcl
          have hvn : v ≠ 'n' := by
            intro he
            subst he
            rw [show DatumCharClass.identify 'n' = some .Content from
              by decide] at hcl
            exact Option.noConfusion hcl
          have hvt : v ≠ 't' := by
            intro he
            subst he
            rw [show DatumCharClass.identify 't' = some .Content from
              by decide] at hcl
            exact Option.noConfusion hcl
          have hvx : v ≠ 'x' := by
            intro he
            subst he
            rw [show DatumCharClass.identify 'x' = some .Content from
              by decide] at hcl
            exact Option.noConfusion hcl
          rw [hemit, DatumDecoder.decodeList_two
            (show DatumDecoder.feed .Normal '\\' = .ok (.Escaping, []) from
              by decide)
            (DatumDecoder.feed_escaping_other hvr hvn hvt hvx h1 h2)]
          rfl
  exact ⟨main, fun c => main (DatumChar.content c) (Or.inr (Or.inl ⟨c, rfl⟩))⟩

/-- Witness for C3 at concrete constructible characters: the escaped list
start and a hex-escaped control character. -/
theorem c3_classified_char_emit_decode_roundtrip_witness :
    DatumDecoder.decodeList .Normal (DatumChar.content '(').emit =
        .ok (.Normal, [DatumChar.content '(']) ∧
      DatumDecoder.decodeList .Normal (DatumChar.content '\x01').emit =
        .ok (.Normal, [DatumChar.content '\x01']) ∧
      DatumDecoder.decodeList .Normal
          (DatumChar.potential_identifier '#').emit =
        .ok (.Normal, [DatumChar.potential_identifier '#']) :=
  ⟨c3_classified_char_emit_decode_roundtrip.1 (DatumChar.content '(')
      (Or.inr (Or.inl ⟨'(', rfl⟩)),
    c3_classified_char_emit_decode_roundtrip.1 (DatumChar.content '\x01')
      (Or.inr (Or.inl ⟨'\x01', rfl⟩)),
    c3_classified_char_emit_decode_roundtrip.1 (DatumChar.potential_identifier '#')
      (Or.inr (Or.inr ⟨'#', rfl⟩))⟩

/-! ## Supporting observations (not claim theorems)

Concrete behaviours of the embedded pipeline matching the spec's other
scenarios, and a positive round trip for a quote-free tree, showing the C1
failure is specific to the unescaped `"`. -/

theorem pipeline_scenario_sum_list :
    DatumPipeline.run ['(', '+', ' ', '1', ' ', '2', ')'] =
      .ok [(0, .List [.Atom (.Symbol ['+']), .Atom (.Integer 1),
        .Atom (.Integer 2)])] := rfl

theorem pipeline_scenario_comment :
    DatumPipeline.run [';', ' ', 'c', '\n'] = .ok [] := rfl

theorem pipeline_scenario_unterminated_list :
    DatumPipeline.run ['(', 'a', ' ', 'b'] = .error ⟨.Interrupted, 4⟩ := rfl

theorem pipeline_scenario_unterminated_string :
    DatumPipeline.run ['"', 'a', 'b', 'c'] = .error ⟨.Interrupted, 4⟩ := rfl

theorem roundtrip_quote_free_tree :
    DatumPipeline.run (DatumValue.write (.List [.Atom (.Integer 1),
        .Atom (.String ['a', ' ', 'b']), .Atom (.Boolean true), .Atom .Nil,
        .List [.Atom (.Symbol ['-'])]])) =
      .ok [(0, .List [.Atom (.Integer 1), .Atom (.String ['a', ' ', 'b']),
        .Atom (.Boolean true), .Atom .Nil, .List [.Atom (.Symbol ['-'])]])] :=
  rfl
